import Mathlib

/-!
Verification of the wine-market analysis scripts: a shallow embedding of the
data-cleaning, bucketization, aggregation, correlation, mock-generation and
polynomial-projection logic, with theorems settling the specification's
testable properties against the embedded code.

Numeric columns are modelled as exact rationals; pandas NaN results are
modelled as `Option.none`; the random source of the mock generator is an
explicit oracle argument.
-/

/-- A row of the wine-reviews dataset, restricted to the columns the analysed
properties touch (country, points, price). -/
structure WineRow where
  country : String
  points : ℚ
  price : ℚ
deriving DecidableEq

/-! ### Bucketization (pd.cut semantics)

`pd.cut(x, bins, labels)` with the default `right=True` assigns `x` to the
label of the interval `(bins[i], bins[i+1]]`: intervals are right-closed,
left-open.  Values outside every interval get NaN (`none`). -/

/-- Embedding of `pd.cut` with the default right-closed intervals: `x`
receives `labels[i]` when `bins[i] < x ≤ bins[i+1]` (for matching lengths,
`bins.length = labels.length + 1`). -/
def pdCut : List ℚ → List String → ℚ → Option String
  | b0 :: b1 :: bs, l0 :: ls, x =>
      if b0 < x ∧ x ≤ b1 then some l0 else pdCut (b1 :: bs) ls x
  | _, _, _ => none

/-- The spec's scenario bucketizer: boundaries `[0,15,30]`, labels
`["low","mid"]`. -/
def scenarioCut (x : ℚ) : Option String :=
  pdCut [0, 15, 30] ["low", "mid"] x

/-- Embedding of the price bucketizer of `clean_data`:
`pd.cut(price, bins=[0,15,30,50,100,inf], labels=[...])` with the default
right-closed convention; the last bin is unbounded above. -/
def priceCategory (p : ℚ) : Option String :=
  if p ≤ 0 then none
  else if p ≤ 15 then some "Econômico (<$15)"
  else if p ≤ 30 then some "Médio ($15-30)"
  else if p ≤ 50 then some "Premium ($30-50)"
  else if p ≤ 100 then some "Super Premium ($50-100)"
  else some "Ultra Premium (>$100)"

/-! ### Value-score ranking (identify_purchase_trends, step 2)

The code takes the rows with `points >= 90` and computes
`value_score = points / price` for every one of them, with no guard on a
zero denominator, before ranking with `nlargest`. -/

/-- The premium filter of `identify_purchase_trends`: rows with
`points >= 90`. -/
def premiumWines (rows : List WineRow) : List WineRow :=
  rows.filter (fun r => decide (90 ≤ r.points))

/-- The rows that enter the `value_score` ranking: exactly the premium rows;
the code applies no zero-denominator exclusion before `nlargest`. -/
def valueRankingInput (rows : List WineRow) : List WineRow :=
  premiumWines rows

/-! ### Loader (DataProcessor.load_wine_reviews)

The file system is abstracted as the outcome of the read: either the full
parsed record set or an error message.  The loader catches the error, emits
a diagnostic line and returns `None`. -/

/-- Embedding of `load_wine_reviews`: on success, the full record set plus a
success message; on any failure, `none` plus a diagnostic message.  The first
component is the return value, the second the console output. -/
def loadWineReviews (fs : Except String (List WineRow)) :
    Option (List WineRow) × List String :=
  match fs with
  | Except.ok d =>
      (some d, ["Dados de avaliações carregados: " ++ toString d.length ++ " registros"])
  | Except.error e =>
      (none, ["Erro ao carregar dados de avaliações: " ++ e])

/-! ### Brazil analysis (DataProcessor.analyze_wine_reviews) -/

/-- Arithmetic mean of a rational column (pandas `.mean()`). -/
def mean (l : List ℚ) : ℚ := l.sum / l.length

/-- The Brazilian-wine filter. -/
def brazilianWines (rows : List WineRow) : List WineRow :=
  rows.filter (fun r => r.country == "Brazil")

/-- The fields of the analysis dictionary that the spec's scenario checks. -/
structure WineAnalysis where
  total_reviews : ℕ
  avg_points : ℚ
  avg_price : ℚ
deriving DecidableEq

/-- Embedding of `analyze_wine_reviews` on loaded data: filters the rows to
`country == "Brazil"` and computes count and means of points and price. -/
def analyzeWineReviews (rows : List WineRow) : WineAnalysis :=
  let bw := brazilianWines rows
  ⟨bw.length, mean (bw.map (·.points)), mean (bw.map (·.price))⟩

/-! ### Per-country correlations (identify_purchase_trends, step 4)

The code iterates over `value_counts().head(10)` — the ten most frequent
countries — and computes the price-points correlation only when
`len(country_data) > 50` (strictly more than 50 rows). -/

/-- Number of rows of a given country (`value_counts` entry). -/
def countryCount (rows : List WineRow) (c : String) : ℕ :=
  rows.countP (fun r => r.country == c)

/-- The distinct countries of the dataset, in order of first appearance. -/
def distinctCountries (rows : List WineRow) : List String :=
  (rows.map (·.country)).dedup

/-- `value_counts().head(10)`: the countries sorted by descending row count,
first ten kept. -/
def topCountries (rows : List WineRow) : List String :=
  (List.insertionSort
    (fun a b => countryCount rows b ≤ countryCount rows a)
    (distinctCountries rows)).take 10

/-- The countries for which `identify_purchase_trends` actually computes a
price-points correlation: those among the top ten whose row count is
strictly greater than 50. -/
def computedCorrelationCountries (rows : List WineRow) : List String :=
  (topCountries rows).filter (fun c => decide (50 < countryCount rows c))

/-! ### Group-by counts (analyze_price_quality_relationship)

`groupby('price_category')` partitions the rows by their price bucket; rows
whose bucket is NaN (`none`) are excluded by pandas.  The per-group count
of a bucket is the number of rows carrying that bucket. -/

/-- The grouping key of a row: its price bucket. -/
def priceKey (r : WineRow) : Option String := priceCategory r.price

/-- The observed group keys (distinct non-null price buckets). -/
def categoryKeys (rows : List WineRow) : List String :=
  (rows.filterMap priceKey).dedup

/-- The per-group counts of `groupby('price_category').agg(count)`. -/
def groupCounts (rows : List WineRow) : List (String × ℕ) :=
  (categoryKeys rows).map (fun k => (k, (rows.filterMap priceKey).count k))

/-! ### Mock export data (WineExportAnalyzer.generate_mock_data)

The random draws are abstracted as an oracle giving, for each (year,
country) pair, the sampled `base_volume`, the growth noise and the
`base_price`. -/

/-- A row of the mock export dataset. -/
structure ExportRow where
  ano : ℕ
  pais_destino : String
  volume_litros : ℚ
  valor_usd : ℚ
deriving DecidableEq

/-- The fixed destination-country list of `generate_mock_data`. -/
def mockCountries : List String :=
  ["Estados Unidos", "Reino Unido", "Alemanha", "Canadá",
   "França", "Japão", "China", "Argentina", "Paraguai", "Uruguai"]

/-- The fixed year range 2009–2023. -/
def mockYears : List ℕ := List.range' 2009 15

/-- `growth_factor = 1 + (year - 2009) * 0.05 + noise`. -/
def growthFactor (noise : ℚ) (year : ℕ) : ℚ :=
  1 + ((year : ℚ) - 2009) * (5/100) + noise

/-- `price_per_liter = base_price * (1 + (year - 2009) * 0.03)`. -/
def pricePerLiter (basePrice : ℚ) (year : ℕ) : ℚ :=
  basePrice * (1 + ((year : ℚ) - 2009) * (3/100))

/-- `volume = max(0, base_volume * growth_factor)`: the sampled volume,
clamped at zero. -/
def mockVolume (draw : ℕ → String → ℚ × ℚ × ℚ) (y : ℕ) (c : String) : ℚ :=
  max 0 ((draw y c).1 * growthFactor (draw y c).2.1 y)

/-- Embedding of `generate_mock_data`: one row per (year, country) pair, in
the nested-loop order of the code; `draw y c` returns the sampled
(base_volume, growth_noise, base_price) for that pair. -/
def generateMockData (draw : ℕ → String → ℚ × ℚ × ℚ) : List ExportRow :=
  mockYears.flatMap fun y => mockCountries.map fun c =>
    ⟨y, c, mockVolume draw y c,
      mockVolume draw y c * pricePerLiter (draw y c).2.2 y⟩

/-- The mock row used by the C10 witness: the (2009, Estados Unidos) row of
the dataset generated from the constant oracle `fun _ _ => (1, 0, 3)`. -/
def mockRowW : ExportRow :=
  ⟨2009, "Estados Unidos", mockVolume (fun _ _ => (1, 0, 3)) 2009 "Estados Unidos",
    mockVolume (fun _ _ => (1, 0, 3)) 2009 "Estados Unidos" * pricePerLiter 3 2009⟩

/-! ### Outlier removal (clean_data, lines 40-49)

`Series.quantile(p)` sorts the values and linearly interpolates at rank
`h = p * (n - 1)` (the pandas default interpolation='linear').
`clean_data` keeps the rows whose price lies within
`[Q1 - 1.5*IQR, Q3 + 1.5*IQR]`. -/

/-- The sorted column (ascending). -/
def sortedVals (xs : List ℚ) : List ℚ :=
  List.insertionSort (· ≤ ·) xs

/-- Linear interpolation of a sorted list at fractional rank `h`:
`s[⌊h⌋] + (h - ⌊h⌋) * (s[⌊h⌋+1] - s[⌊h⌋])`. -/
def interpAt (s : List ℚ) (h : ℚ) : ℚ :=
  s.getD (⌊h⌋.toNat) 0 +
    (h - ((⌊h⌋.toNat : ℕ) : ℚ)) * (s.getD (⌊h⌋.toNat + 1) 0 - s.getD (⌊h⌋.toNat) 0)

/-- Embedding of `Series.quantile(p)` with linear interpolation. -/
def quantile (xs : List ℚ) (p : ℚ) : ℚ :=
  interpAt (sortedVals xs) (p * ((xs.length : ℚ) - 1))

/-- Embedding of the outlier filter of `clean_data`: keeps the values `v`
with `Q1 - 1.5*IQR <= v <= Q3 + 1.5*IQR` where `IQR = Q3 - Q1`. -/
def removeOutliers (xs : List ℚ) : List ℚ :=
  let q1 := quantile xs (1/4)
  let q3 := quantile xs (3/4)
  let iqr := q3 - q1
  xs.filter (fun v => decide (q1 - 3/2 * iqr ≤ v) && decide (v ≤ q3 + 3/2 * iqr))

/-! ### Pearson correlation (analyze_price_quality_relationship, line 76)

`Series.corr` computes `r = sxy / (sqrt sxx * sqrt syy)` over the centered
columns and returns NaN when either variance vanishes.  `sxx`, `syy`, `sxy`
are the centered second-moment sums; `r²  = sxy² / (sxx * syy)` is their
rational square. -/

/-- Mean of the first coordinates. -/
def mxOf (xs : List (ℚ × ℚ)) : ℚ := mean (xs.map Prod.fst)

/-- Mean of the second coordinates. -/
def myOf (xs : List (ℚ × ℚ)) : ℚ := mean (xs.map Prod.snd)

/-- Centered sum of squares of the first column. -/
def sxx (xs : List (ℚ × ℚ)) : ℚ := (xs.map (fun p => (p.1 - mxOf xs)^2)).sum

/-- Centered sum of squares of the second column. -/
def syy (xs : List (ℚ × ℚ)) : ℚ := (xs.map (fun p => (p.2 - myOf xs)^2)).sum

/-- Centered sum of cross products. -/
def sxy (xs : List (ℚ × ℚ)) : ℚ :=
  (xs.map (fun p => (p.1 - mxOf xs) * (p.2 - myOf xs))).sum

/-- The squared Pearson coefficient as returned by `corr`, with the NaN
outcome of a zero variance modelled as `none`. -/
def pearsonSq (xs : List (ℚ × ℚ)) : Option ℚ :=
  if sxx xs = 0 ∨ syy xs = 0 then none
  else some ((sxy xs)^2 / (sxx xs * syy xs))

/-! ### Future projections (WineExportAnalyzer.create_future_projections)

`PolynomialFeatures(degree=2)` expands the year into the basis
`[1, year, year²]`; `LinearRegression` fits ordinary least squares on it,
independently for the volume and the value series; predictions are made for
the years 2024–2028.  The fit is embedded by its closed form: the normal
equations of the degree-2 basis solved by Cramer's rule (well-defined when
the Gram determinant is non-zero, i.e. with at least 3 distinct years). -/

/-- A consolidated yearly row of `analysis_data`: year, total volume, total
value. -/
structure YearlyData where
  ano : ℚ
  volume_litros : ℚ
  valor_usd : ℚ
deriving DecidableEq

/-- The (year, volume) series. -/
def volSeries (rows : List YearlyData) : List (ℚ × ℚ) :=
  rows.map (fun r => (r.ano, r.volume_litros))

/-- The (year, value) series. -/
def valSeries (rows : List YearlyData) : List (ℚ × ℚ) :=
  rows.map (fun r => (r.ano, r.valor_usd))

/-- Power sum of the predictor column: `∑ x^k`. -/
def psum (data : List (ℚ × ℚ)) (k : ℕ) : ℚ :=
  (data.map (fun p => p.1 ^ k)).sum

/-- Moment sum of the target against the predictor: `∑ x^k * y`. -/
def ysum (data : List (ℚ × ℚ)) (k : ℕ) : ℚ :=
  (data.map (fun p => p.1 ^ k * p.2)).sum

/-- Determinant of a 3×3 matrix given row-wise. -/
def det3 (a b c d e f g h i : ℚ) : ℚ :=
  a * (e * i - f * h) - b * (d * i - f * g) + c * (d * h - e * g)

/-- The Gram determinant of the degree-2 polynomial basis on the data. -/
def gramDet (data : List (ℚ × ℚ)) : ℚ :=
  det3 (psum data 0) (psum data 1) (psum data 2)
       (psum data 1) (psum data 2) (psum data 3)
       (psum data 2) (psum data 3) (psum data 4)

/-- The ordinary-least-squares coefficients `(c0, c1, c2)` of
`y ≈ c0 + c1*x + c2*x²`, by Cramer's rule on the normal equations of the
degree-2 basis. -/
def olsTriple (data : List (ℚ × ℚ)) : ℚ × ℚ × ℚ :=
  (det3 (ysum data 0) (psum data 1) (psum data 2)
        (ysum data 1) (psum data 2) (psum data 3)
        (ysum data 2) (psum data 3) (psum data 4) / gramDet data,
   det3 (psum data 0) (ysum data 0) (psum data 2)
        (psum data 1) (ysum data 1) (psum data 3)
        (psum data 2) (ysum data 2) (psum data 4) / gramDet data,
   det3 (psum data 0) (psum data 1) (ysum data 0)
        (psum data 1) (psum data 2) (ysum data 1)
        (psum data 2) (psum data 3) (ysum data 2) / gramDet data)

/-- The fit result: the OLS coefficients, or `none` when the Gram
determinant vanishes (degenerate design, fewer than 3 distinct years). -/
def fitCoeffs (data : List (ℚ × ℚ)) : Option (ℚ × ℚ × ℚ) :=
  if gramDet data = 0 then none else some (olsTriple data)

/-- Evaluation of the fitted degree-2 polynomial. -/
def predictPoly (b : ℚ × ℚ × ℚ) (x : ℚ) : ℚ :=
  b.1 + b.2.1 * x + b.2.2 * x ^ 2

/-- The five future years 2024–2028 of the projection. -/
def futureYears : List ℚ := [2024, 2025, 2026, 2027, 2028]

/-- Embedding of `create_future_projections`: fits the two series
independently and evaluates both fitted polynomials at the five future
years. -/
def createFutureProjections (rows : List YearlyData) : Option (List ℚ × List ℚ) :=
  match fitCoeffs (volSeries rows), fitCoeffs (valSeries rows) with
  | some bv, some bw =>
      some (futureYears.map (predictPoly bv), futureYears.map (predictPoly bw))
  | _, _ => none

/-- The sum of squared errors of a coefficient triple on a series. -/
def sseOf (data : List (ℚ × ℚ)) (b : ℚ × ℚ × ℚ) : ℚ :=
  (data.map (fun p => (p.2 - predictPoly b p.1) ^ 2)).sum

/-! ### Theorems for claims C1, C2, C7, C8 -/

/-- C1, counterexample: with boundaries `[0,15,30]` and labels
`["low","mid"]`, the code's bucketizer (pd.cut, default right-closed
intervals) maps the boundary value 15 to `"low"`, not to `"mid"` as the
claim's lower-inclusive convention states. -/
theorem c1_counterexample_boundary_15_is_low :
    scenarioCut 15 = some "low" ∧ scenarioCut 15 ≠ some "mid" := by
  have h : scenarioCut 15 = some "low" := by norm_num [scenarioCut, pdCut]
  refine ⟨h, ?_⟩
  rw [h]
  decide

/-- C1, amended: the bucketizer uses right-closed, left-open intervals
`(lo, hi]`: every value in the cut's range maps to exactly one label (for the
program's price bins, exactly the positive prices get a label), a value equal
to an interior boundary maps to the interval whose UPPER bound it is, and in
the scenario with boundaries `[0,15,30]` and labels `["low","mid"]` both 15
and 14.999 map to `"low"`. -/
theorem c1_bucketize_right_closed (x : ℚ) :
    ((priceCategory x).isSome ↔ 0 < x) ∧
    (priceCategory x = some "Médio ($15-30)" ↔ 15 < x ∧ x ≤ 30) ∧
    priceCategory 15 = some "Econômico (<$15)" ∧
    scenarioCut 15 = some "low" ∧
    scenarioCut (14999/1000) = some "low" := by
  refine ⟨?_, ?_, by decide, by norm_num [scenarioCut, pdCut],
    by norm_num [scenarioCut, pdCut]⟩
  · unfold priceCategory
    split_ifs with h1 h2 h3 h4 h5
    · simpa using not_lt.mpr h1
    all_goals simpa using not_le.mp h1
  · constructor
    · intro h
      unfold priceCategory at h
      split_ifs at h with h1 h2 h3 h4 h5
      all_goals first
        | exact absurd h (by decide)
        | exact ⟨not_le.mp h2, h3⟩
    · rintro ⟨h15, h30⟩
      unfold priceCategory
      rw [if_neg (by linarith), if_neg (by linarith), if_pos h30]

/-- C1 witness: the amended theorem instantiated at the concrete value 20
(positive, inside the second bin). -/
theorem c1_bucketize_right_closed_witness :
    ((priceCategory 20).isSome ↔ 0 < (20 : ℚ)) ∧
    (priceCategory 20 = some "Médio ($15-30)" ↔ 15 < (20 : ℚ) ∧ (20 : ℚ) ≤ 30) ∧
    priceCategory 15 = some "Econômico (<$15)" ∧
    scenarioCut 15 = some "low" ∧
    scenarioCut (14999/1000) = some "low" :=
  c1_bucketize_right_closed 20

/-- C2: at the failing input (a single premium row with price 0) the code
does not exclude the zero-denominator row: it enters the `value_score`
ranking input, where the claimed policy requires it to be dropped. -/
theorem c2_zero_price_row_enters_ranking :
    valueRankingInput [⟨"Wine X", 90, 0⟩] = [⟨"Wine X", 90, 0⟩] ∧
    (⟨"Wine X", 90, 0⟩ : WineRow).price = 0 := by
  exact ⟨by decide, rfl⟩

/-- C7: for every outcome of the file read, the loader either returns the
full record set (with a row-count message) or catches the failure, emits a
diagnostic and returns the `none` sentinel; it never propagates the error
and never returns a partial load. -/
theorem c7_loader_full_or_sentinel (fs : Except String (List WineRow)) :
    (∃ d, fs = Except.ok d ∧ loadWineReviews fs =
      (some d, ["Dados de avaliações carregados: " ++ toString d.length ++ " registros"])) ∨
    (∃ e, fs = Except.error e ∧ loadWineReviews fs =
      (none, ["Erro ao carregar dados de avaliações: " ++ e])) := by
  cases fs with
  | ok d => exact Or.inl ⟨d, rfl, rfl⟩
  | error e => exact Or.inr ⟨e, rfl, rfl⟩

/-- C8: on exactly the two rows (Brazil, 88 points, $20) and (Brazil, 92
points, $45), the Brazil analysis returns count 2, mean points 90 and mean
price 65/2 = 32.5. -/
theorem c8_brazil_scenario :
    analyzeWineReviews [⟨"Brazil", 88, 20⟩, ⟨"Brazil", 92, 45⟩] =
      ⟨2, 90, 65/2⟩ := by
  simp only [analyzeWineReviews, brazilianWines, mean]
  norm_num

/-- C3, counterexample: a dataset whose only country has exactly 50 rows.
The claim's threshold ("at least 50") would compute a correlation for it,
but the code's strict `> 50` guard skips it: no correlation is computed. -/
theorem c3_counterexample_exactly_50_skipped :
    countryCount (List.replicate 50 ⟨"Brazil", 90, 10⟩) "Brazil" = 50 ∧
    computedCorrelationCountries (List.replicate 50 ⟨"Brazil", 90, 10⟩) = [] := by
  constructor
  · decide
  · decide

/-- C3, amended: the per-country correlation is computed for exactly those
countries that are among the ten most frequent AND have strictly more than
50 rows; every other subgroup (fewer rows, or outside the top ten) is
skipped. -/
theorem c3_correlation_guard (rows : List WineRow) (c : String) :
    c ∈ computedCorrelationCountries rows ↔
      c ∈ topCountries rows ∧ 50 < countryCount rows c := by
  simp [computedCorrelationCountries, List.mem_filter]

/-- C3 witness: on 51 identical Brazilian rows, Brazil is in the top ten and
has more than 50 rows, so its correlation is computed. -/
theorem c3_correlation_guard_witness :
    "Brazil" ∈ computedCorrelationCountries (List.replicate 51 ⟨"Brazil", 90, 10⟩) :=
  (c3_correlation_guard (List.replicate 51 ⟨"Brazil", 90, 10⟩) "Brazil").mpr
    ⟨by decide, by decide⟩

/-- Helper: summing, over the distinct values of a list, the number of their
occurrences recovers the length of the list. -/
theorem sum_dedup_count (l : List String) :
    (l.dedup.map fun k => l.count k).sum = l.length := by
  have h1 : l.dedup.toFinset.sum (fun k => l.count k) = (l.dedup.map fun k => l.count k).sum :=
    List.sum_toFinset _ l.nodup_dedup
  have h2 : l.dedup.toFinset = l.toFinset := by
    ext a
    simp
  rw [h2] at h1
  rw [← h1, List.sum_toFinset_count_eq_length]

/-- Helper: a `filterMap` whose function succeeds on every element preserves
the length. -/
theorem length_filterMap_of_isSome {α β : Type} (f : α → Option β) (l : List α)
    (h : ∀ x ∈ l, (f x).isSome) : (l.filterMap f).length = l.length := by
  induction l with
  | nil => rfl
  | cons a t ih =>
      obtain ⟨b, hb⟩ := Option.isSome_iff_exists.mp (h a (List.mem_cons_self a t))
      simp [List.filterMap_cons, hb, ih (fun x hx => h x (List.mem_cons_of_mem _ hx))]

/-- C5: when no row's price bucket is null, the per-group counts of the
price-category group-by sum to the total row count of the dataset: no rows
are lost or duplicated. -/
theorem c5_group_counts_sum_to_total (rows : List WineRow)
    (h : ∀ r ∈ rows, (priceKey r).isSome) :
    ((groupCounts rows).map Prod.snd).sum = rows.length := by
  unfold groupCounts categoryKeys
  rw [List.map_map]
  have hc : (Prod.snd ∘ fun k => (k, (rows.filterMap priceKey).count k)) =
      fun k => (rows.filterMap priceKey).count k := rfl
  rw [hc, sum_dedup_count]
  exact length_filterMap_of_isSome priceKey rows h

/-- C5 witness: a two-row dataset with positive prices (both buckets
non-null); the group counts sum to 2. -/
theorem c5_group_counts_sum_to_total_witness :
    (∀ r ∈ [(⟨"Brazil", 88, 20⟩ : WineRow), ⟨"France", 92, 45⟩], (priceKey r).isSome) ∧
    ((groupCounts [⟨"Brazil", 88, 20⟩, ⟨"France", 92, 45⟩]).map Prod.snd).sum =
      ([(⟨"Brazil", 88, 20⟩ : WineRow), ⟨"France", 92, 45⟩] : List WineRow).length :=
  ⟨by decide, c5_group_counts_sum_to_total _ (by decide)⟩

set_option maxRecDepth 40000 in
/-- C10: for every outcome of the random draws, every generated mock row has
a non-negative volume (clamped at zero) and a value equal to its volume
times the sampled price per liter; the dataset has exactly one row per
(year, country) pair over 2009–2023 and the fixed ten-country list, hence
exactly 150 rows. -/
theorem c10_mock_invariants (draw : ℕ → String → ℚ × ℚ × ℚ) :
    (∀ r ∈ generateMockData draw,
        0 ≤ r.volume_litros ∧
        r.valor_usd = r.volume_litros * pricePerLiter (draw r.ano r.pais_destino).2.2 r.ano) ∧
    (generateMockData draw).map (fun r => (r.ano, r.pais_destino)) =
      (mockYears.flatMap fun y => mockCountries.map fun c => (y, c)) ∧
    (mockYears.flatMap fun y => mockCountries.map fun c => (y, c)).Nodup ∧
    (generateMockData draw).length = 150 := by
  have hmap : (generateMockData draw).map (fun r => (r.ano, r.pais_destino)) =
      (mockYears.flatMap fun y => mockCountries.map fun c => (y, c)) := by
    simp only [generateMockData, List.map_flatMap, List.map_map]
    rfl
  refine ⟨?_, hmap, by decide, ?_⟩
  · intro r hr
    simp only [generateMockData, List.mem_flatMap, List.mem_map] at hr
    obtain ⟨y, hy, c, hc, rfl⟩ := hr
    exact ⟨le_max_left _ _, rfl⟩
  · have h1 : (generateMockData draw).length =
        ((generateMockData draw).map (fun r => (r.ano, r.pais_destino))).length :=
      (List.length_map _ _).symm
    rw [h1, hmap]
    decide

/-- Helper: in a sorted list, values at earlier positions are no larger. -/
theorem sorted_getD_mono (s : List ℚ) (hs : s.Sorted (· ≤ ·)) {i j : ℕ}
    (hij : i ≤ j) (hj : j < s.length) : s.getD i 0 ≤ s.getD j 0 := by
  have hi : i < s.length := Nat.lt_of_le_of_lt hij hj
  rw [List.getD_eq_getElem s 0 hi, List.getD_eq_getElem s 0 hj]
  have h := hs.rel_get_of_le (a := ⟨i, hi⟩) (b := ⟨j, hj⟩) hij
  simpa using h

/-- Helper: linear interpolation at a fractional rank is monotone in the
rank, over a sorted list. -/
theorem interpAt_mono (s : List ℚ) (hs : s.Sorted (· ≤ ·)) (hn : 1 ≤ s.length)
    {h₁ h₂ : ℚ} (h0 : 0 ≤ h₁) (h12 : h₁ ≤ h₂) (hle : h₂ ≤ (s.length : ℚ) - 1) :
    interpAt s h₁ ≤ interpAt s h₂ := by
  have h02 : 0 ≤ h₂ := le_trans h0 h12
  have hf1 : (0 : ℤ) ≤ ⌊h₁⌋ := Int.floor_nonneg.mpr h0
  have hf2 : (0 : ℤ) ≤ ⌊h₂⌋ := Int.floor_nonneg.mpr h02
  unfold interpAt
  set n := s.length with hn'
  set i := ⌊h₁⌋.toNat with hi'
  set j := ⌊h₂⌋.toNat with hj'
  have hiq : ((i : ℕ) : ℚ) = ((⌊h₁⌋ : ℤ) : ℚ) := by
    rw [hi']
    exact_mod_cast congrArg (fun z : ℤ => (z : ℚ)) (Int.toNat_of_nonneg hf1)
  have hjq : ((j : ℕ) : ℚ) = ((⌊h₂⌋ : ℤ) : ℚ) := by
    rw [hj']
    exact_mod_cast congrArg (fun z : ℤ => (z : ℚ)) (Int.toNat_of_nonneg hf2)
  have hg1_0 : 0 ≤ h₁ - ((i : ℕ) : ℚ) := by
    rw [hiq]
    exact sub_nonneg.mpr (Int.floor_le h₁)
  have hg2_0 : 0 ≤ h₂ - ((j : ℕ) : ℚ) := by
    rw [hjq]
    exact sub_nonneg.mpr (Int.floor_le h₂)
  have hg1_1 : h₁ - ((i : ℕ) : ℚ) < 1 := by
    rw [hiq]
    have h := Int.lt_floor_add_one h₁
    linarith
  have hij : i ≤ j := by
    rw [hi', hj']
    exact Int.toNat_le_toNat (Int.floor_mono h12)
  have hncast : ((n - 1 : ℕ) : ℚ) = (n : ℚ) - 1 := by
    rw [Nat.cast_sub hn, Nat.cast_one]
  have hfj : ⌊h₂⌋ ≤ ((n - 1 : ℕ) : ℤ) := by
    have h := Int.floor_mono (le_of_le_of_eq hle hncast.symm)
    rwa [Int.floor_natCast] at h
  have hjn : j ≤ n - 1 := by omega
  rcases eq_or_lt_of_le hij with heq | hlt
  · by_cases hin : i + 1 < n
    · have hd : 0 ≤ s.getD (i + 1) 0 - s.getD i 0 :=
        sub_nonneg.mpr (sorted_getD_mono s hs (Nat.le_succ i) hin)
      have hg12 : h₁ - ((i : ℕ) : ℚ) ≤ h₂ - ((j : ℕ) : ℚ) := by
        rw [← heq]
        linarith
      rw [← heq]
      have hmul := mul_le_mul_of_nonneg_right hg12 hd
      rw [← heq] at hmul
      linarith
    · have hieq : (i : ℚ) = (n : ℚ) - 1 := by
        have : i = n - 1 := by omega
        rw [this, hncast]
      have hjeq : (j : ℚ) = (n : ℚ) - 1 := by
        have : j = n - 1 := by omega
        rw [this, hncast]
      have hg1z : h₁ - ((i : ℕ) : ℚ) = 0 := by
        have : h₁ - ((i : ℕ) : ℚ) ≤ 0 := by rw [hieq]; linarith
        linarith
      have hg2z : h₂ - ((j : ℕ) : ℚ) = 0 := by
        have : h₂ - ((j : ℕ) : ℚ) ≤ 0 := by rw [hjeq]; linarith
        linarith
      rw [hg1z, hg2z, ← heq]
  · have hin : i + 1 < n := by omega
    have hjltn : j < n := by omega
    have hd1 : 0 ≤ s.getD (i + 1) 0 - s.getD i 0 :=
      sub_nonneg.mpr (sorted_getD_mono s hs (Nat.le_succ i) hin)
    have step1 : s.getD i 0 + (h₁ - ((i : ℕ) : ℚ)) * (s.getD (i + 1) 0 - s.getD i 0) ≤
        s.getD (i + 1) 0 := by
      have hmul := mul_le_mul_of_nonneg_right (le_of_lt hg1_1) hd1
      linarith
    have step2 : s.getD (i + 1) 0 ≤ s.getD j 0 :=
      sorted_getD_mono s hs (by omega) hjltn
    have step3 : s.getD j 0 ≤
        s.getD j 0 + (h₂ - ((j : ℕ) : ℚ)) * (s.getD (j + 1) 0 - s.getD j 0) := by
      by_cases hjn1 : j + 1 < n
      · have hd2 : 0 ≤ s.getD (j + 1) 0 - s.getD j 0 :=
          sub_nonneg.mpr (sorted_getD_mono s hs (Nat.le_succ j) hjn1)
        have hmul := mul_nonneg hg2_0 hd2
        linarith
      · have hjeq : (j : ℚ) = (n : ℚ) - 1 := by
          have : j = n - 1 := by omega
          rw [this, hncast]
        have hg2z : h₂ - ((j : ℕ) : ℚ) = 0 := by
          have : h₂ - ((j : ℕ) : ℚ) ≤ 0 := by rw [hjeq]; linarith
          linarith
        rw [hg2z]
        simp
    linarith

/-- Helper: the first quartile never exceeds the third quartile. -/
theorem quantile_q1_le_q3 (xs : List ℚ) (hne : xs ≠ []) :
    quantile xs (1/4) ≤ quantile xs (3/4) := by
  have hlen : (sortedVals xs).length = xs.length :=
    (List.perm_insertionSort _ xs).length_eq
  have hn : 1 ≤ (sortedVals xs).length := by
    rw [hlen]
    exact List.length_pos.mpr hne
  have hs : (sortedVals xs).Sorted (· ≤ ·) := List.sorted_insertionSort _ xs
  have hx1 : (0 : ℚ) ≤ (xs.length : ℚ) - 1 := by
    have h1 : 1 ≤ xs.length := by rw [← hlen]; exact hn
    have h2 : (1 : ℚ) ≤ (xs.length : ℚ) := by exact_mod_cast h1
    linarith
  unfold quantile
  apply interpAt_mono _ hs hn
  · exact mul_nonneg (by norm_num) hx1
  · exact mul_le_mul_of_nonneg_right (by norm_num) hx1
  · rw [hlen]
    linarith

/-- C4: on every non-empty column, the outlier filter keeps exactly the
values in `[Q1 - 1.5*IQR, Q3 + 1.5*IQR]` (with `Q1`, `Q3` the linearly
interpolated quartiles and `IQR = Q3 - Q1`); consequently it never removes
a value lying in `[Q1, Q3]`. -/
theorem c4_remove_outliers_keeps_iqr_band (xs : List ℚ) (hne : xs ≠ []) :
    (∀ v : ℚ, v ∈ removeOutliers xs ↔
      v ∈ xs ∧
        quantile xs (1/4) - 3/2 * (quantile xs (3/4) - quantile xs (1/4)) ≤ v ∧
        v ≤ quantile xs (3/4) + 3/2 * (quantile xs (3/4) - quantile xs (1/4))) ∧
    (∀ v ∈ xs, quantile xs (1/4) ≤ v → v ≤ quantile xs (3/4) →
      v ∈ removeOutliers xs) := by
  have hq : quantile xs (1/4) ≤ quantile xs (3/4) := quantile_q1_le_q3 xs hne
  have hmem : ∀ v : ℚ, v ∈ removeOutliers xs ↔
      v ∈ xs ∧
        quantile xs (1/4) - 3/2 * (quantile xs (3/4) - quantile xs (1/4)) ≤ v ∧
        v ≤ quantile xs (3/4) + 3/2 * (quantile xs (3/4) - quantile xs (1/4)) := by
    intro v
    simp [removeOutliers, List.mem_filter, and_assoc]
  refine ⟨hmem, ?_⟩
  intro v hv h1 h3
  exact (hmem v).mpr ⟨hv, by linarith, by linarith⟩

/-- C4 witness: the filter characterization applied to the concrete column
[1, 2, 3, 4, 100]. -/
theorem c4_remove_outliers_keeps_iqr_band_witness :
    ([1, 2, 3, 4, 100] : List ℚ) ≠ [] ∧
    ((∀ v : ℚ, v ∈ removeOutliers [1, 2, 3, 4, 100] ↔
      v ∈ ([1, 2, 3, 4, 100] : List ℚ) ∧
        quantile [1, 2, 3, 4, 100] (1/4) -
            3/2 * (quantile [1, 2, 3, 4, 100] (3/4) - quantile [1, 2, 3, 4, 100] (1/4)) ≤ v ∧
        v ≤ quantile [1, 2, 3, 4, 100] (3/4) +
            3/2 * (quantile [1, 2, 3, 4, 100] (3/4) - quantile [1, 2, 3, 4, 100] (1/4))) ∧
    (∀ v ∈ ([1, 2, 3, 4, 100] : List ℚ),
      quantile [1, 2, 3, 4, 100] (1/4) ≤ v → v ≤ quantile [1, 2, 3, 4, 100] (3/4) →
      v ∈ removeOutliers [1, 2, 3, 4, 100])) :=
  ⟨by simp, c4_remove_outliers_keeps_iqr_band [1, 2, 3, 4, 100] (by simp)⟩

/-- C10 witness: for the constant oracle returning (1, 0, 3), the
(2009, Estados Unidos) row satisfies the row invariants. -/
theorem c10_mock_invariants_witness :
    0 ≤ mockRowW.volume_litros ∧
    mockRowW.valor_usd =
      mockRowW.volume_litros *
        pricePerLiter ((fun _ _ => ((1 : ℚ), (0 : ℚ), (3 : ℚ))) mockRowW.ano
          mockRowW.pais_destino).2.2 mockRowW.ano :=
  (c10_mock_invariants (fun _ _ => (1, 0, 3))).1 mockRowW
    (List.mem_flatMap.mpr ⟨2009, by decide,
      List.mem_map.mpr ⟨"Estados Unidos", by decide, rfl⟩⟩)

/-- Helper: a list-map sum as a `Finset.range` sum over positions. -/
theorem list_map_sum_eq_range {α : Type} (d : α) (f : α → ℚ) (l : List α) :
    (l.map f).sum = ∑ k in Finset.range l.length, f (l.getD k d) := by
  induction l with
  | nil => simp
  | cons a t ih =>
      rw [List.map_cons, List.sum_cons, List.length_cons, Finset.sum_range_succ']
      simp only [List.getD_cons_succ, List.getD_cons_zero]
      rw [← ih]
      exact add_comm _ _

/-- Helper: the Cauchy–Schwarz inequality for a list of pairs. -/
theorem list_cauchy_schwarz (l : List (ℚ × ℚ)) :
    ((l.map (fun p => p.1 * p.2)).sum)^2 ≤
      ((l.map (fun p => p.1^2)).sum) * ((l.map (fun p => p.2^2)).sum) := by
  rw [list_map_sum_eq_range (0, 0) (fun p => p.1 * p.2) l,
      list_map_sum_eq_range (0, 0) (fun p => p.1^2) l,
      list_map_sum_eq_range (0, 0) (fun p => p.2^2) l]
  exact Finset.sum_mul_sq_le_sq_mul_sq (Finset.range l.length)
    (fun k => (l.getD k (0, 0)).1) (fun k => (l.getD k (0, 0)).2)

/-- Helper: the squared covariance sum is at most the product of the
variance sums. -/
theorem sxy_sq_le_sxx_mul_syy (xs : List (ℚ × ℚ)) :
    (sxy xs)^2 ≤ sxx xs * syy xs := by
  have h := list_cauchy_schwarz (xs.map (fun p => (p.1 - mxOf xs, p.2 - myOf xs)))
  simpa [List.map_map, Function.comp, sxy, sxx, syy] using h

/-- Helper: the centered sum of squares of the first column is nonnegative. -/
theorem sxx_nonneg (xs : List (ℚ × ℚ)) : 0 ≤ sxx xs := by
  apply List.sum_nonneg
  intro x hx
  obtain ⟨p, _hp, rfl⟩ := List.mem_map.mp hx
  exact sq_nonneg _

/-- Helper: the centered sum of squares of the second column is
nonnegative. -/
theorem syy_nonneg (xs : List (ℚ × ℚ)) : 0 ≤ syy xs := by
  apply List.sum_nonneg
  intro x hx
  obtain ⟨p, _hp, rfl⟩ := List.mem_map.mp hx
  exact sq_nonneg _

/-- C6: with at least two rows and non-zero variance in both columns, the
Pearson coefficient `sxy / (sqrt sxx * sqrt syy)` lies in [-1, 1]; when
either variance is zero, the correlation is the defined "undefined" result
(`none`, modelling pandas NaN) rather than a crash. -/
theorem c6_correlation_bounds (xs : List (ℚ × ℚ)) :
    (2 ≤ xs.length → sxx xs ≠ 0 → syy xs ≠ 0 →
      -1 ≤ ((sxy xs : ℝ)) / (Real.sqrt ((sxx xs : ℝ)) * Real.sqrt ((syy xs : ℝ))) ∧
      ((sxy xs : ℝ)) / (Real.sqrt ((sxx xs : ℝ)) * Real.sqrt ((syy xs : ℝ))) ≤ 1) ∧
    ((sxx xs = 0 ∨ syy xs = 0) → pearsonSq xs = none) := by
  constructor
  · intro _hlen hx hy
    have hxpos : (0 : ℝ) < ((sxx xs : ℝ)) := by
      have h0 : (0 : ℚ) < sxx xs := lt_of_le_of_ne (sxx_nonneg xs) (Ne.symm hx)
      exact_mod_cast h0
    have hypos : (0 : ℝ) < ((syy xs : ℝ)) := by
      have h0 : (0 : ℚ) < syy xs := lt_of_le_of_ne (syy_nonneg xs) (Ne.symm hy)
      exact_mod_cast h0
    have hcs : ((sxy xs : ℝ))^2 ≤ ((sxx xs : ℝ)) * ((syy xs : ℝ)) := by
      exact_mod_cast sxy_sq_le_sxx_mul_syy xs
    have hsp : (0 : ℝ) < Real.sqrt ((sxx xs : ℝ)) * Real.sqrt ((syy xs : ℝ)) :=
      mul_pos (Real.sqrt_pos.mpr hxpos) (Real.sqrt_pos.mpr hypos)
    have habs : |((sxy xs : ℝ))| ≤ Real.sqrt ((sxx xs : ℝ)) * Real.sqrt ((syy xs : ℝ)) := by
      have h1 := Real.sqrt_le_sqrt hcs
      rw [Real.sqrt_sq_eq_abs, Real.sqrt_mul (le_of_lt hxpos)] at h1
      exact h1
    have hdiv : |((sxy xs : ℝ)) / (Real.sqrt ((sxx xs : ℝ)) * Real.sqrt ((syy xs : ℝ)))| ≤ 1 := by
      rw [abs_div, abs_of_pos hsp]
      exact (div_le_one hsp).mpr habs
    exact abs_le.mp hdiv
  · intro h
    unfold pearsonSq
    rw [if_pos h]

/-- C6 witness: the bound instantiated on the two-point dataset
[(0, 0), (1, 1)], whose variances are 1/2 each. -/
theorem c6_correlation_bounds_witness :
    -1 ≤ ((sxy [((0 : ℚ), (0 : ℚ)), (1, 1)] : ℝ)) /
        (Real.sqrt ((sxx [((0 : ℚ), (0 : ℚ)), (1, 1)] : ℝ)) *
          Real.sqrt ((syy [((0 : ℚ), (0 : ℚ)), (1, 1)] : ℝ))) ∧
    ((sxy [((0 : ℚ), (0 : ℚ)), (1, 1)] : ℝ)) /
        (Real.sqrt ((sxx [((0 : ℚ), (0 : ℚ)), (1, 1)] : ℝ)) *
          Real.sqrt ((syy [((0 : ℚ), (0 : ℚ)), (1, 1)] : ℝ))) ≤ 1 :=
  (c6_correlation_bounds [((0 : ℚ), (0 : ℚ)), (1, 1)]).1 (by norm_num)
    (by norm_num [sxx, mxOf, mean]) (by norm_num [syy, myOf, mean])

/-- Helper: Cramer's rule for a 3×3 system: the quotients of the
column-replaced determinants by the system determinant satisfy each row
equation. -/
theorem cramer3_rows (a00 a01 a02 a10 a11 a12 a20 a21 a22 b0 b1 b2 : ℚ)
    (hd : det3 a00 a01 a02 a10 a11 a12 a20 a21 a22 ≠ 0) :
    (a00 * (det3 b0 a01 a02 b1 a11 a12 b2 a21 a22 /
        det3 a00 a01 a02 a10 a11 a12 a20 a21 a22) +
      a01 * (det3 a00 b0 a02 a10 b1 a12 a20 b2 a22 /
        det3 a00 a01 a02 a10 a11 a12 a20 a21 a22) +
      a02 * (det3 a00 a01 b0 a10 a11 b1 a20 a21 b2 /
        det3 a00 a01 a02 a10 a11 a12 a20 a21 a22) = b0) ∧
    (a10 * (det3 b0 a01 a02 b1 a11 a12 b2 a21 a22 /
        det3 a00 a01 a02 a10 a11 a12 a20 a21 a22) +
      a11 * (det3 a00 b0 a02 a10 b1 a12 a20 b2 a22 /
        det3 a00 a01 a02 a10 a11 a12 a20 a21 a22) +
      a12 * (det3 a00 a01 b0 a10 a11 b1 a20 a21 b2 /
        det3 a00 a01 a02 a10 a11 a12 a20 a21 a22) = b1) ∧
    (a20 * (det3 b0 a01 a02 b1 a11 a12 b2 a21 a22 /
        det3 a00 a01 a02 a10 a11 a12 a20 a21 a22) +
      a21 * (det3 a00 b0 a02 a10 b1 a12 a20 b2 a22 /
        det3 a00 a01 a02 a10 a11 a12 a20 a21 a22) +
      a22 * (det3 a00 a01 b0 a10 a11 b1 a20 a21 b2 /
        det3 a00 a01 a02 a10 a11 a12 a20 a21 a22) = b2) := by
  unfold det3 at hd ⊢
  refine ⟨?_, ?_, ?_⟩ <;> field_simp <;> ring

/-- Helper: the residual sum weighted by `x^k` in terms of the power and
moment sums. -/
theorem resid_sum_eq (data : List (ℚ × ℚ)) (b : ℚ × ℚ × ℚ) (k : ℕ) :
    (data.map (fun p => (p.2 - predictPoly b p.1) * p.1 ^ k)).sum =
      ysum data k -
        (b.1 * psum data k + b.2.1 * psum data (k + 1) + b.2.2 * psum data (k + 2)) := by
  induction data with
  | nil => simp [psum, ysum]
  | cons p t ih =>
      have hps : ∀ m : ℕ, psum (p :: t) m = p.1 ^ m + psum t m := by
        intro m
        simp [psum]
      have hys : ysum (p :: t) k = p.1 ^ k * p.2 + ysum t k := by
        simp [ysum]
      rw [List.map_cons, List.sum_cons, hps k, hps (k + 1), hps (k + 2), hys, ih]
      simp only [predictPoly]
      ring

/-- Helper: decomposition of the sum of squared errors of any coefficient
triple against a reference triple. -/
theorem sse_decomposition (data : List (ℚ × ℚ)) (b b' : ℚ × ℚ × ℚ) :
    sseOf data b' = sseOf data b
      + (data.map (fun p => (predictPoly b' p.1 - predictPoly b p.1) ^ 2)).sum
      - 2 * ((b'.1 - b.1) * (data.map (fun p => (p.2 - predictPoly b p.1) * p.1 ^ 0)).sum
        + (b'.2.1 - b.2.1) * (data.map (fun p => (p.2 - predictPoly b p.1) * p.1 ^ 1)).sum
        + (b'.2.2 - b.2.2) * (data.map (fun p => (p.2 - predictPoly b p.1) * p.1 ^ 2)).sum) := by
  induction data with
  | nil => simp [sseOf]
  | cons p t ih =>
      simp only [sseOf, List.map_cons, List.sum_cons, predictPoly] at ih ⊢
      linear_combination ih

/-- Helper: the Cramer coefficients satisfy the three normal equations of
the degree-2 least-squares problem. -/
theorem normal_eqs (data : List (ℚ × ℚ)) (hd : gramDet data ≠ 0) :
    (psum data 0 * (olsTriple data).1 + psum data 1 * (olsTriple data).2.1 +
      psum data 2 * (olsTriple data).2.2 = ysum data 0) ∧
    (psum data 1 * (olsTriple data).1 + psum data 2 * (olsTriple data).2.1 +
      psum data 3 * (olsTriple data).2.2 = ysum data 1) ∧
    (psum data 2 * (olsTriple data).1 + psum data 3 * (olsTriple data).2.1 +
      psum data 4 * (olsTriple data).2.2 = ysum data 2) := by
  have h := cramer3_rows (psum data 0) (psum data 1) (psum data 2)
    (psum data 1) (psum data 2) (psum data 3)
    (psum data 2) (psum data 3) (psum data 4)
    (ysum data 0) (ysum data 1) (ysum data 2) hd
  unfold olsTriple gramDet
  simpa using h

/-- Helper: the Cramer coefficients minimize the sum of squared errors. -/
theorem olsTriple_optimal (data : List (ℚ × ℚ)) (hd : gramDet data ≠ 0) :
    ∀ b, sseOf data (olsTriple data) ≤ sseOf data b := by
  intro b
  obtain ⟨hr0, hr1, hr2⟩ := normal_eqs data hd
  have hres0 : (data.map (fun p => (p.2 - predictPoly (olsTriple data) p.1) * p.1 ^ 0)).sum = 0 := by
    rw [resid_sum_eq]
    norm_num
    linear_combination -hr0
  have hres1 : (data.map (fun p => (p.2 - predictPoly (olsTriple data) p.1) * p.1 ^ 1)).sum = 0 := by
    rw [resid_sum_eq]
    norm_num
    linear_combination -hr1
  have hres2 : (data.map (fun p => (p.2 - predictPoly (olsTriple data) p.1) * p.1 ^ 2)).sum = 0 := by
    rw [resid_sum_eq]
    norm_num
    linear_combination -hr2
  have hdec := sse_decomposition data (olsTriple data) b
  rw [hres0, hres1, hres2] at hdec
  have hq : 0 ≤ (data.map (fun p => (predictPoly b p.1 - predictPoly (olsTriple data) p.1) ^ 2)).sum := by
    apply List.sum_nonneg
    intro x hx
    obtain ⟨p, _hp, rfl⟩ := List.mem_map.mp hx
    exact sq_nonneg _
  simp only [mul_zero, add_zero, zero_add, sub_zero] at hdec
  linarith

/-- C9: when both series have a non-degenerate design (non-zero Gram
determinant, i.e. at least three distinct years), the projector fits the
degree-2 basis [1, year, year²] by ordinary least squares independently for
the volume and the value series — the fitted triples minimize the sum of
squared errors of their own series — and returns the point predictions of
the two fitted polynomials for exactly the five future years 2024–2028. -/
theorem c9_future_projections (rows : List YearlyData)
    (hv : gramDet (volSeries rows) ≠ 0) (hw : gramDet (valSeries rows) ≠ 0) :
    fitCoeffs (volSeries rows) = some (olsTriple (volSeries rows)) ∧
    fitCoeffs (valSeries rows) = some (olsTriple (valSeries rows)) ∧
    createFutureProjections rows =
      some ([predictPoly (olsTriple (volSeries rows)) 2024,
             predictPoly (olsTriple (volSeries rows)) 2025,
             predictPoly (olsTriple (volSeries rows)) 2026,
             predictPoly (olsTriple (volSeries rows)) 2027,
             predictPoly (olsTriple (volSeries rows)) 2028],
            [predictPoly (olsTriple (valSeries rows)) 2024,
             predictPoly (olsTriple (valSeries rows)) 2025,
             predictPoly (olsTriple (valSeries rows)) 2026,
             predictPoly (olsTriple (valSeries rows)) 2027,
             predictPoly (olsTriple (valSeries rows)) 2028]) ∧
    (∀ b, sseOf (volSeries rows) (olsTriple (volSeries rows)) ≤ sseOf (volSeries rows) b) ∧
    (∀ b, sseOf (valSeries rows) (olsTriple (valSeries rows)) ≤ sseOf (valSeries rows) b) := by
  have hv' : fitCoeffs (volSeries rows) = some (olsTriple (volSeries rows)) := by
    unfold fitCoeffs
    rw [if_neg hv]
  have hw' : fitCoeffs (valSeries rows) = some (olsTriple (valSeries rows)) := by
    unfold fitCoeffs
    rw [if_neg hw]
  refine ⟨hv', hw', ?_, olsTriple_optimal _ hv, olsTriple_optimal _ hw⟩
  unfold createFutureProjections
  rw [hv', hw']
  simp [futureYears]

/-- C9 witness: the projection theorem instantiated on a concrete three-year
series with an invertible design. -/
theorem c9_future_projections_witness :
    fitCoeffs (volSeries [⟨0, 0, 0⟩, ⟨1, 1, 2⟩, ⟨2, 4, 6⟩]) =
      some (olsTriple (volSeries [⟨0, 0, 0⟩, ⟨1, 1, 2⟩, ⟨2, 4, 6⟩])) :=
  (c9_future_projections [⟨0, 0, 0⟩, ⟨1, 1, 2⟩, ⟨2, 4, 6⟩]
    (by norm_num [gramDet, det3, psum, volSeries])
    (by norm_num [gramDet, det3, psum, valSeries])).1
